import Mathlib

/-!
Verification of the closinuf rotary-encoder point-catcher (src/site/main.go).

The program tracks three rotary shaft encoders (axes X/Y/Z), decodes their
quadrature signals into signed counters, periodically derives RPM, derives
linear distance on demand, and captures 3D points (debounced physical button
or web trigger) into a shared point list.

Embedding conventions:
* Go `time.Time` / `time.Duration` values are modelled as `Int` nanoseconds
  (Go durations are int64 nanoseconds; `time.Millisecond * k` is
  `k * 1000000` ns and `Duration.Seconds()` divides by 1e9).
* Go `float64` arithmetic is idealised: rational where only field operations
  on rationals occur (RPM), real where `math.Pi` enters (distance).
* A GPIO `Values` read that can fail is an `Option` input to the handler;
  `none` models a failed read (the Go handler returns without touching state).
* Each edge/tick handler becomes a pure state-transition function; lists of
  events replay a sequence of handler invocations.
-/

namespace Closinuf

/-- Quadrature transition table from `main.go` (`deltaTable`): indexed by
`(lastState << 2) | currentState`; `+1` = CW, `-1` = CCW, `0` = no/invalid
change. -/
def deltaTable : List Int :=
  [0, -1, 1, 0,
   1, 0, 0, -1,
   -1, 0, 0, 1,
   0, 1, -1, 0]

/-- Table lookup `deltaTable[idx]`; indices reached by the program are < 16. -/
def deltaAt (i : Nat) : Int := deltaTable.getD i 0

/-- Go constant `countsPerRev = 2400.0` (600 PPR × 4, full quadrature). -/
def countsPerRev : ℚ := 2400

/-- Go constant `wheelDiameter = 50.0` (mm). -/
def wheelDiameter : ℝ := 50

/-- Go constant `wheelCircumference = math.Pi * wheelDiameter`. -/
noncomputable def wheelCircumference : ℝ := Real.pi * wheelDiameter

/-- Per-axis encoder state (`type Encoder struct` in `main.go`); the GPIO
lines handle and the mutex are not part of the sequential state. -/
@[ext]
structure Encoder where
  counter : Int
  lastState : Nat
  lastReadTime : Int
  lastReadCount : Int
  rpm : ℚ
  label : String
deriving Repr, DecidableEq

/-- One invocation of the per-axis edge `handler` in `main.go`.  `read` is
the freshly read 2-bit pin state `(values[0] << 1) | values[1]`; `none`
models a failed `Values` read (the handler returns immediately). -/
def handler (enc : Encoder) (read : Option Nat) : Encoder :=
  match read with
  | none => enc
  | some currentState =>
    if currentState ≠ enc.lastState then
      let idx := enc.lastState <<< 2 ||| currentState
      let delta := deltaAt idx
      let enc1 := if delta ≠ 0 then { enc with counter := enc.counter + delta } else enc
      { enc1 with lastState := currentState }
    else enc

/-- Replay a list of successful pin reads through the edge handler. -/
def runHandler (enc : Encoder) : List Nat → Encoder
  | [] => enc
  | c :: cs => runHandler (handler enc (some c)) cs

/-- A single legal Gray-code quadrature step: the fresh 2-bit state differs
from the stored one and the canonical table assigns it a nonzero delta. -/
def grayStepB (last cur : Nat) : Bool :=
  decide (cur < 4) && (cur != last) && (deltaAt (last <<< 2 ||| cur) != 0)

/-- A whole read sequence is a chain of legal Gray-code steps, threading the
stored state through each transition. -/
def validChainB : Nat → List Nat → Bool
  | _, [] => true
  | last, c :: cs => grayStepB last c && validChainB c cs

/-- Net signed step count of a read sequence according to the canonical
quadrature table, threading the stored state through each transition. -/
def netSteps : Nat → List Nat → Int
  | _, [] => 0
  | last, c :: cs => deltaAt (last <<< 2 ||| c) + netSteps c cs

/-- One full forward (CW, +1) quadrature cycle starting from state `00`:
`00 → 10 → 11 → 01 → 00`. -/
def fwdCycle : List Nat := [2, 3, 1, 0]

/-- Concatenation of `n` forward cycles, i.e. `4 * n` valid forward steps. -/
def fwdRev (n : Nat) : List Nat := (List.replicate n fwdCycle).flatten

/-- Encoder state at program startup: Go zero values for all numeric fields
(`counter = 0`, `lastState = 0`, …) with the axis label set. -/
def initialEncoder : Encoder :=
  { counter := 0, lastState := 0, lastReadTime := 0, lastReadCount := 0,
    rpm := 0, label := "X" }

lemma deltaAt_mem_range (i : Nat) :
    deltaAt i = -1 ∨ deltaAt i = 0 ∨ deltaAt i = 1 := by
  by_cases h : i < 16
  · interval_cases i <;> decide
  · have hlen : deltaTable.length ≤ i := by
      have : deltaTable.length = 16 := by decide
      omega
    right; left
    exact List.getD_eq_default deltaTable 0 hlen

lemma handler_valid_step {enc : Encoder} {c : Nat}
    (h : grayStepB enc.lastState c = true) :
    handler enc (some c) =
      { enc with counter := enc.counter + deltaAt (enc.lastState <<< 2 ||| c),
                 lastState := c } := by
  simp only [grayStepB, Bool.and_eq_true, bne_iff_ne, ne_eq,
    decide_eq_true_eq] at h
  obtain ⟨⟨-, hne⟩, hdelta⟩ := h
  simp [handler, hne, hdelta]

lemma runHandler_counter_of_valid :
    ∀ (cs : List Nat) (enc : Encoder), validChainB enc.lastState cs = true →
      (runHandler enc cs).counter = enc.counter + netSteps enc.lastState cs := by
  intro cs
  induction cs with
  | nil => intro enc _; simp [runHandler, netSteps]
  | cons c cs ih =>
    intro enc h
    simp only [validChainB, Bool.and_eq_true] at h
    obtain ⟨hstep, hchain⟩ := h
    have hstep' := handler_valid_step hstep
    rw [runHandler, hstep', netSteps, ih _ (by simpa using hchain)]
    simp only
    ring

lemma runHandler_append (enc : Encoder) (l₁ l₂ : List Nat) :
    runHandler enc (l₁ ++ l₂) = runHandler (runHandler enc l₁) l₂ := by
  induction l₁ generalizing enc with
  | nil => simp [runHandler]
  | cons c cs ih => simp [runHandler, ih]

lemma handler_step_eq (enc : Encoder) (l c : Nat) (d : Int)
    (h : enc.lastState = l) (hne : c ≠ l) (hd : deltaAt (l <<< 2 ||| c) = d)
    (hdz : d ≠ 0) :
    handler enc (some c) =
      { enc with counter := enc.counter + d, lastState := c } := by
  simp [handler, h, hne, hd, hdz]

lemma runHandler_fwdCycle (enc : Encoder) (h : enc.lastState = 0) :
    runHandler enc fwdCycle =
      { enc with counter := enc.counter + 4, lastState := 0 } := by
  show runHandler enc (2 :: 3 :: 1 :: 0 :: []) = _
  rw [runHandler, handler_step_eq enc 0 2 1 h (by decide) (by decide) (by decide)]
  rw [runHandler, handler_step_eq _ 2 3 1 rfl (by decide) (by decide) (by decide)]
  rw [runHandler, handler_step_eq _ 3 1 1 rfl (by decide) (by decide) (by decide)]
  rw [runHandler, handler_step_eq _ 1 0 1 rfl (by decide) (by decide) (by decide)]
  show ({ enc with counter := enc.counter + 1 + 1 + 1 + 1, lastState := 0 } : Encoder) = _
  ext <;> simp <;> try omega

lemma runHandler_fwdRev (n : Nat) (enc : Encoder) (h : enc.lastState = 0) :
    runHandler enc (fwdRev n) =
      { enc with counter := enc.counter + 4 * (n : Int), lastState := 0 } := by
  induction n generalizing enc with
  | zero =>
    show runHandler enc [] = _
    show enc = _
    ext <;> simp [h]
  | succ k ih =>
    have hsplit : fwdRev (k + 1) = fwdCycle ++ fwdRev k := by
      simp [fwdRev, List.replicate_succ]
    rw [hsplit, runHandler_append, runHandler_fwdCycle enc h, ih _ rfl]
    ext <;> simp <;> try push_cast; ring

/-- Distance derivation from `getEncoderData` in `main.go`:
`(float64(count) / countsPerRev) * wheelCircumference`. -/
noncomputable def distanceOf (count : Int) : ℝ :=
  ((count : ℝ) / ((countsPerRev : ℚ) : ℝ)) * wheelCircumference

/-- C1: processing any sequence of valid quadrature edges (each fresh 2-bit
state one legal Gray-code step away from the stored state) leaves the counter
at its initial value plus the net signed step count of the canonical table;
in particular 2400 consecutive forward steps from the startup state yield
counter 2400, whose derived distance equals the wheel circumference. -/
theorem C1_quadrature_net_count :
    (∀ (enc : Encoder) (cs : List Nat), validChainB enc.lastState cs = true →
      (runHandler enc cs).counter = enc.counter + netSteps enc.lastState cs)
    ∧ (runHandler initialEncoder (fwdRev 600)).counter = 2400
    ∧ distanceOf 2400 = wheelCircumference := by
  refine ⟨fun enc cs h => runHandler_counter_of_valid cs enc h, ?_, ?_⟩
  · rw [runHandler_fwdRev 600 initialEncoder rfl]
    show initialEncoder.counter + 4 * (600 : Int) = 2400
    decide
  · show ((2400 : Int) : ℝ) / ((countsPerRev : ℚ) : ℝ) * wheelCircumference = _
    norm_num [countsPerRev]

/-- Witness for C1 at concrete inputs: the single valid forward step `00 → 10`
from the startup state. -/
theorem C1_quadrature_net_count_witness :
    validChainB initialEncoder.lastState [2] = true ∧
      (runHandler initialEncoder [2]).counter =
        initialEncoder.counter + netSteps initialEncoder.lastState [2] :=
  ⟨by decide, C1_quadrature_net_count.1 initialEncoder [2] (by decide)⟩

/-- The four valid clockwise (+1) transitions of the table, as
`(lastState, currentState)` pairs: the cycle `00 → 10 → 11 → 01 → 00`. -/
def cwPairs : List (Nat × Nat) := [(0, 2), (2, 3), (3, 1), (1, 0)]

/-- The four valid counter-clockwise (-1) transitions of the table. -/
def ccwPairs : List (Nat × Nat) := [(2, 0), (3, 2), (1, 3), (0, 1)]

/-- The four same-state transitions of the table. -/
def samePairs : List (Nat × Nat) := [(0, 0), (1, 1), (2, 2), (3, 3)]

/-- The four diagonal transitions of the table: `00 ↔ 11` and `01 ↔ 10`. -/
def diagPairs : List (Nat × Nat) := [(0, 3), (3, 0), (1, 2), (2, 1)]

/-- C2: the 16-entry table assigns +1 to the four valid clockwise
transitions, -1 to the four valid counter-clockwise transitions, 0 to the
four same-state transitions and 0 to the four diagonal transitions; hence an
edge event taking the stored state directly across a diagonal (00 to 11,
01 to 10, or the reverse) leaves the counter unchanged. -/
theorem C2_delta_table_classification :
    (∀ p ∈ cwPairs, deltaAt (p.1 <<< 2 ||| p.2) = 1)
    ∧ (∀ p ∈ ccwPairs, deltaAt (p.1 <<< 2 ||| p.2) = -1)
    ∧ (∀ p ∈ samePairs, deltaAt (p.1 <<< 2 ||| p.2) = 0)
    ∧ (∀ p ∈ diagPairs, deltaAt (p.1 <<< 2 ||| p.2) = 0)
    ∧ (∀ (enc : Encoder) (cur : Nat), (enc.lastState, cur) ∈ diagPairs →
        (handler enc (some cur)).counter = enc.counter) := by
  refine ⟨by decide, by decide, by decide, by decide, ?_⟩
  intro enc cur hmem
  simp only [diagPairs, List.mem_cons, List.mem_singleton, Prod.mk.injEq,
    List.not_mem_nil, or_false] at hmem
  rcases hmem with ⟨h1, h2⟩ | ⟨h1, h2⟩ | ⟨h1, h2⟩ | ⟨h1, h2⟩ <;>
    subst h2 <;> simp [handler, h1, deltaAt, deltaTable]

/-- Witness for C2 at a concrete input: the transition `00 → 11` on a
concrete encoder state leaves the counter unchanged. -/
theorem C2_delta_table_classification_witness :
    (handler initialEncoder (some 3)).counter = initialEncoder.counter :=
  C2_delta_table_classification.2.2.2.2 initialEncoder 3 (by decide)

/-- C3: a single edge-handler invocation is a no-op when the fresh state
equals the stored one; otherwise the counter moves by exactly the table
delta (always in {-1, 0, +1}) and the stored state is unconditionally
replaced by the fresh state, even when the delta is 0. -/
theorem C3_single_invocation :
    ∀ (enc : Encoder) (cur : Nat),
      (cur = enc.lastState → handler enc (some cur) = enc)
      ∧ (cur ≠ enc.lastState →
          (handler enc (some cur)).counter =
            enc.counter + deltaAt (enc.lastState <<< 2 ||| cur)
          ∧ (deltaAt (enc.lastState <<< 2 ||| cur) = -1
              ∨ deltaAt (enc.lastState <<< 2 ||| cur) = 0
              ∨ deltaAt (enc.lastState <<< 2 ||| cur) = 1)
          ∧ (handler enc (some cur)).lastState = cur) := by
  intro enc cur
  constructor
  · intro heq
    simp [handler, heq]
  · intro hne
    refine ⟨?_, deltaAt_mem_range _, ?_⟩ <;>
      by_cases hd : deltaAt (enc.lastState <<< 2 ||| cur) = 0 <;>
        simp [handler, hne, hd]

/-- Witness for C3 at concrete inputs: the duplicate edge `00 → 00` is a
no-op, and the edge `00 → 10` moves the counter by the table delta and
stores the fresh state. -/
theorem C3_single_invocation_witness :
    (handler initialEncoder (some 0) = initialEncoder)
    ∧ ((handler initialEncoder (some 2)).counter =
        initialEncoder.counter + deltaAt (initialEncoder.lastState <<< 2 ||| 2)
      ∧ (deltaAt (initialEncoder.lastState <<< 2 ||| 2) = -1
          ∨ deltaAt (initialEncoder.lastState <<< 2 ||| 2) = 0
          ∨ deltaAt (initialEncoder.lastState <<< 2 ||| 2) = 1)
      ∧ (handler initialEncoder (some 2)).lastState = 2) :=
  ⟨(C3_single_invocation initialEncoder 0).1 rfl,
   (C3_single_invocation initialEncoder 2).2 (by decide)⟩

/-- Elapsed time in seconds seen by the RPM ticker:
`now.Sub(enc.lastReadTime).Seconds()`, i.e. nanoseconds divided by 1e9. -/
def rpmElapsedSec (enc : Encoder) (now : Int) : ℚ :=
  ((now - enc.lastReadTime : Int) : ℚ) / 1000000000

/-- One per-encoder iteration of the periodic RPM ticker goroutine in
`main.go`: snapshot the counter, compute the count delta and elapsed
seconds, update `rpm` only when the elapsed time is positive, then record
the snapshot. -/
def rpmTick (enc : Encoder) (now : Int) : Encoder :=
  let currentCount := enc.counter
  let deltaCounts := currentCount - enc.lastReadCount
  let elapsedSec := rpmElapsedSec enc now
  let newRpm :=
    if 0 < elapsedSec then
      ((deltaCounts : ℚ) / countsPerRev) * (60 / elapsedSec)
    else enc.rpm
  { enc with rpm := newRpm, lastReadCount := currentCount, lastReadTime := now }

/-- C4: on a sampler tick, if the elapsed time is positive the axis rpm
becomes `(delta / counts_per_revolution) * (60 / elapsed)`; otherwise the
rpm is left unchanged (no division by zero is performed); in both cases the
sampling bookkeeping is then set to the current counter and time. -/
theorem C4_rpm_tick :
    ∀ (enc : Encoder) (now : Int),
      (0 < rpmElapsedSec enc now →
        (rpmTick enc now).rpm =
          (((enc.counter - enc.lastReadCount : Int) : ℚ) / countsPerRev) *
            (60 / rpmElapsedSec enc now))
      ∧ (¬ 0 < rpmElapsedSec enc now → (rpmTick enc now).rpm = enc.rpm)
      ∧ (rpmTick enc now).lastReadCount = enc.counter
      ∧ (rpmTick enc now).lastReadTime = now := by
  intro enc now
  refine ⟨fun h => ?_, fun h => ?_, rfl, rfl⟩
  · simp [rpmTick, h]
  · simp [rpmTick, h]

/-- Witness for C4 at a concrete input: a tick one second (1e9 ns) after the
startup snapshot updates the rpm by the formula. -/
theorem C4_rpm_tick_witness :
    0 < rpmElapsedSec initialEncoder 1000000000 ∧
      (rpmTick initialEncoder 1000000000).rpm =
        (((initialEncoder.counter - initialEncoder.lastReadCount : Int) : ℚ) /
            countsPerRev) * (60 / rpmElapsedSec initialEncoder 1000000000) := by
  have h : 0 < rpmElapsedSec initialEncoder 1000000000 := by
    simp [rpmElapsedSec, initialEncoder]
  exact ⟨h, (C4_rpm_tick initialEncoder 1000000000).1 h⟩

/-- A captured 3D point (`type Point struct` in `main.go`), coordinates in
millimetres. -/
structure Point where
  x : ℝ
  y : ℝ
  z : ℝ

/-- Per-axis values returned by `getEncoderData`. -/
structure EncoderValues where
  count : Int
  rpm : ℚ
  distance : ℝ
  label : String

/-- The three-axis snapshot returned by `getEncoderData`. -/
structure EncoderData where
  x : EncoderValues
  y : EncoderValues
  z : EncoderValues

/-- The program's shared mutable state: the three encoders (X=0, Y=1, Z=2)
and the accumulated point list. -/
@[ext]
structure SysState where
  encoders : Fin 3 → Encoder
  points : List Point

/-- The per-axis body of `getEncoderData`: snapshot the counter, rpm and
label and derive the distance `(float64(count) / countsPerRev) *
wheelCircumference`. -/
noncomputable def encoderValues (enc : Encoder) : EncoderValues :=
  { count := enc.counter, rpm := enc.rpm, distance := distanceOf enc.counter,
    label := enc.label }

/-- Model of `getEncoderData` from `main.go`: a pure read of the three encoders; it
mutates nothing. -/
noncomputable def getEncoderData (s : SysState) : EncoderData :=
  { x := encoderValues (s.encoders 0), y := encoderValues (s.encoders 1),
    z := encoderValues (s.encoders 2) }

/-- C5: the distance reported for each axis equals
`(counter / counts_per_revolution) * wheel_circumference_mm` with
`counts_per_revolution = 2400` and `wheel_circumference_mm = π * 50.0`; the
derivation `distanceOf` is a pure function of the counter alone. -/
theorem C5_distance_formula :
    ∀ (s : SysState),
      (getEncoderData s).x.distance =
        (((s.encoders 0).counter : ℝ) / 2400) * (Real.pi * 50)
      ∧ (getEncoderData s).y.distance =
        (((s.encoders 1).counter : ℝ) / 2400) * (Real.pi * 50)
      ∧ (getEncoderData s).z.distance =
        (((s.encoders 2).counter : ℝ) / 2400) * (Real.pi * 50)
      ∧ (∀ c : Int, distanceOf c = ((c : ℝ) / 2400) * (Real.pi * 50)) := by
  have hform : ∀ c : Int, distanceOf c = ((c : ℝ) / 2400) * (Real.pi * 50) := by
    intro c
    show ((c : ℝ) / ((countsPerRev : ℚ) : ℝ)) * wheelCircumference = _
    norm_num [countsPerRev, wheelCircumference, wheelDiameter]
  intro s
  exact ⟨hform _, hform _, hform _, hform⟩

/-- The `POST /api/encoder/zero` handler in `main.go`: sets every encoder
counter to 0 and replaces the point list with the empty list. -/
def zeroHandler (s : SysState) : SysState :=
  { encoders := fun i => { s.encoders i with counter := 0 }, points := [] }

/-- A concrete non-trivial system state used to exhibit behaviour of the
zero handler on a non-empty point store. -/
def exStateC6 : SysState :=
  { encoders := fun _ =>
      { counter := 5, lastState := 2, lastReadTime := 7, lastReadCount := 3,
        rpm := 1, label := "X" },
    points := [⟨1, 2, 3⟩] }

/-- C6 counterexample: the claim that the zero operation leaves the point
store unchanged is false — on a state holding one captured point, the zero
handler empties the point list. -/
theorem C6_counterexample_points_cleared :
    ¬ (zeroHandler exStateC6).points = exStateC6.points := by
  simp [zeroHandler, exStateC6]

/-- C6 (amended): the zero operation sets each axis counter to 0, leaves
each axis's stored pin state, rpm and rate-sampling bookkeeping unchanged,
and clears the point store in the same operation (the clear is performed by
the zero handler itself, not left to a separate call). -/
theorem C6_zero_effects :
    ∀ (s : SysState) (i : Fin 3),
      ((zeroHandler s).encoders i).counter = 0
      ∧ ((zeroHandler s).encoders i).lastState = (s.encoders i).lastState
      ∧ ((zeroHandler s).encoders i).rpm = (s.encoders i).rpm
      ∧ ((zeroHandler s).encoders i).lastReadCount = (s.encoders i).lastReadCount
      ∧ ((zeroHandler s).encoders i).lastReadTime = (s.encoders i).lastReadTime
      ∧ (zeroHandler s).points = [] := by
  intro s i
  exact ⟨rfl, rfl, rfl, rfl, rfl, rfl⟩

/-- C7: the zero operation is idempotent — applying it twice produces
exactly the state of applying it once, and every axis counter is 0
afterwards. -/
theorem C7_zero_idempotent :
    ∀ (s : SysState),
      zeroHandler (zeroHandler s) = zeroHandler s
      ∧ (∀ i : Fin 3, ((zeroHandler s).encoders i).counter = 0) := by
  intro s
  refine ⟨?_, fun i => rfl⟩
  ext i : 2 <;> rfl

/-- The `GET /api/points/save` handler of the first program variant in
`main.go` (state effect and outcome; the `%.6f`-formatted file body is the
excluded export component, so the drained points stand for the export):
with no points it answers HTTP 400 `No points to save` and changes nothing;
otherwise it exports the points and clears the list. -/
def savePointsHandler (s : SysState) : SysState × Except String (List Point) :=
  if s.points.length = 0 then (s, Except.error "No points to save")
  else ({ s with points := [] }, Except.ok s.points)

/-- The `GET /api/points/save` handler of the second program variant in
`main.go`: identical empty-store rejection, but the list is not cleared
after a successful export. -/
def savePointsHandler2 (s : SysState) : SysState × Except String (List Point) :=
  if s.points.length = 0 then (s, Except.error "No points to save")
  else (s, Except.ok s.points)

/-- C10: when the point store is empty, both variants of the save handler
return the error `No points to save` (HTTP 400) instead of an empty export
and leave the state unchanged. -/
theorem C10_save_rejects_empty :
    ∀ (s : SysState), s.points.length = 0 →
      savePointsHandler s = (s, Except.error "No points to save")
      ∧ savePointsHandler2 s = (s, Except.error "No points to save") := by
  intro s h
  constructor <;> simp [savePointsHandler, savePointsHandler2, h]

/-- Witness for C10 at a concrete input: the empty startup state is
rejected by both save handlers. -/
theorem C10_save_rejects_empty_witness :
    ({ encoders := fun _ => initialEncoder, points := [] } : SysState).points.length = 0
    ∧ savePointsHandler { encoders := fun _ => initialEncoder, points := [] } =
        ({ encoders := fun _ => initialEncoder, points := [] }, Except.error "No points to save")
    ∧ savePointsHandler2 { encoders := fun _ => initialEncoder, points := [] } =
        ({ encoders := fun _ => initialEncoder, points := [] }, Except.error "No points to save") :=
  ⟨rfl,
   (C10_save_rejects_empty { encoders := fun _ => initialEncoder, points := [] } rfl).1,
   (C10_save_rejects_empty { encoders := fun _ => initialEncoder, points := [] } rfl).2⟩

/-- GPIO line-event kinds delivered to the button handler
(`gpiocdev.LineEventRisingEdge` / `LineEventFallingEdge`, plus a catch-all
for any other value, which the robust handler treats in its final branch). -/
inductive EdgeType where
  | rising
  | falling
  | unknown
deriving DecidableEq, Repr

/-- State of the simple (first-variant) button handler: the time of the last
accepted press and the shared point list. -/
structure SimpleBtn where
  lastBtnPressTime : Int
  points : List Point

/-- Model of `pointBtnHandler` of the first program variant in `main.go`: only a
falling edge is a press; it is accepted when at least 50 ms
(`btnDebounceMs`) have elapsed since the last accepted press, in which case
the accepted time is recorded and a point `p` (the current encoder
distances) is appended. Times are `Int` nanoseconds. -/
def pointBtnHandlerSimple (st : SimpleBtn) (ty : EdgeType) (now : Int)
    (p : Point) : SimpleBtn :=
  if ty ≠ EdgeType.falling then st
  else if now - st.lastBtnPressTime < 50 * 1000000 then st
  else { lastBtnPressTime := now, points := st.points ++ [p] }

/-- Times of the accepted presses when a list of `(edge, time, point)`
events is replayed through the simple button handler; an event is accepted
exactly when it appends a point. -/
def acceptedTimesSimple (st : SimpleBtn) : List (EdgeType × Int × Point) → List Int
  | [] => []
  | e :: rest =>
    if (pointBtnHandlerSimple st e.1 e.2.1 e.2.2).points.length =
        st.points.length + 1 then
      e.2.1 :: acceptedTimesSimple (pointBtnHandlerSimple st e.1 e.2.1 e.2.2) rest
    else acceptedTimesSimple (pointBtnHandlerSimple st e.1 e.2.1 e.2.2) rest

/-- State of the robust (second-variant) button handler: last accepted
trigger time, last observed pin level (`-1` initially), rolling window of
recent rising-edge timestamps, and the shared point list. -/
structure BtnState where
  lastBtnTriggerTime : Int
  lastPinState : Int
  recentRisingEdges : List Int
  points : List Point

/-- One event delivered to the robust button handler: the edge kind, the
event time (ns), the debug pin read at entry (`none` when the line is nil
or the read fails; the handler then keeps `-1`), the verification pin read
performed inside the rising branch, and the point that a capture would
append (the current encoder distances). -/
structure BtnEvent where
  ty : EdgeType
  now : Int
  read1 : Option Int
  read2 : Option Int
  p : Point

/-- Model of `pointBtnHandler` of the second program variant in `main.go` (robust
rising-edge heuristic): maintain a 100 ms window of rising-edge timestamps;
reject within 300 ms of the last accepted trigger; then require the pin to
read high, and accept on bounce pattern (two or more edges in the window),
a previously observed low pin level, or more than 500 ms since the last
accepted trigger; on acceptance clear the window, record the time and pin
level, and append the captured point.  `r1` is the debug pin read at entry
(kept as `-1` on failure), `r2` the verification read inside the rising
branch, `p` the point a capture would append. -/
def robustBtnHandler (st : BtnState) (ty : EdgeType) (now : Int)
    (r1 r2 : Option Int) (p : Point) : BtnState :=
  let currentState : Int := r1.getD (-1)
  match ty with
  | EdgeType.falling => st
  | EdgeType.unknown => { st with lastPinState := currentState }
  | EdgeType.rising =>
    let cutoff := now - 100 * 1000000
    let validEdges := (st.recentRisingEdges.filter fun t => cutoff < t) ++ [now]
    let edgeCount := validEdges.length
    let st1 := { st with recentRisingEdges := validEdges }
    if now - st.lastBtnTriggerTime < 300 * 1000000 then
      { st1 with lastPinState := currentState }
    else
      match r2 with
      | none => st1
      | some v =>
        if v = 1 then
          if 2 ≤ edgeCount ∨ st.lastPinState = 0 ∨
              500 * 1000000 < now - st.lastBtnTriggerTime then
            { st1 with lastBtnTriggerTime := now, lastPinState := v,
                       recentRisingEdges := [], points := st.points ++ [p] }
          else { st1 with lastPinState := v }
        else { st1 with lastPinState := v }

/-- Times of the accepted triggers when a list of events is replayed
through the robust button handler; an event is accepted exactly when it
appends a point. -/
def acceptedTimesRobust (st : BtnState) : List BtnEvent → List Int
  | [] => []
  | e :: rest =>
    if (robustBtnHandler st e.ty e.now e.read1 e.read2 e.p).points.length =
        st.points.length + 1 then
      e.now :: acceptedTimesRobust (robustBtnHandler st e.ty e.now e.read1 e.read2 e.p) rest
    else acceptedTimesRobust (robustBtnHandler st e.ty e.now e.read1 e.read2 e.p) rest

lemma simpleBtn_step (st : SimpleBtn) (ty : EdgeType) (now : Int) (p : Point) :
    pointBtnHandlerSimple st ty now p = st
    ∨ ((pointBtnHandlerSimple st ty now p).points = st.points ++ [p]
        ∧ (pointBtnHandlerSimple st ty now p).lastBtnPressTime = now
        ∧ 50 * 1000000 ≤ now - st.lastBtnPressTime) := by
  unfold pointBtnHandlerSimple
  split
  · exact Or.inl rfl
  · split
    · exact Or.inl rfl
    · rename_i hge
      exact Or.inr ⟨rfl, rfl, by omega⟩

lemma robustBtn_step (st : BtnState) (ty : EdgeType) (now : Int)
    (r1 r2 : Option Int) (p : Point) :
    ((robustBtnHandler st ty now r1 r2 p).points = st.points
      ∧ (robustBtnHandler st ty now r1 r2 p).lastBtnTriggerTime =
          st.lastBtnTriggerTime)
    ∨ ((robustBtnHandler st ty now r1 r2 p).points = st.points ++ [p]
        ∧ (robustBtnHandler st ty now r1 r2 p).lastBtnTriggerTime = now
        ∧ 300 * 1000000 ≤ now - st.lastBtnTriggerTime) := by
  cases ty with
  | falling => exact Or.inl ⟨rfl, rfl⟩
  | unknown => exact Or.inl ⟨rfl, rfl⟩
  | rising =>
    simp only [robustBtnHandler]
    split
    · exact Or.inl ⟨rfl, rfl⟩
    · rename_i hdeb
      cases r2 with
      | none => exact Or.inl ⟨rfl, rfl⟩
      | some v =>
        simp only
        split
        · split
          · exact Or.inr ⟨rfl, rfl, by omega⟩
          · exact Or.inl ⟨rfl, rfl⟩
        · exact Or.inl ⟨rfl, rfl⟩

lemma acceptedTimesSimple_sep :
    ∀ (evts : List (EdgeType × Int × Point)) (st : SimpleBtn),
      (∀ t ∈ acceptedTimesSimple st evts, st.lastBtnPressTime + 50 * 1000000 ≤ t)
      ∧ (acceptedTimesSimple st evts).Pairwise fun a b => 50 * 1000000 ≤ b - a := by
  intro evts
  induction evts with
  | nil => intro st; simp [acceptedTimesSimple]
  | cons e rest ih =>
    intro st
    rw [acceptedTimesSimple]
    rcases simpleBtn_step st e.1 e.2.1 e.2.2 with hno | ⟨hpts, htime, hsep⟩
    · rw [hno]
      rw [if_neg (by omega : ¬ st.points.length = st.points.length + 1)]
      exact ih st
    · have hlen : (pointBtnHandlerSimple st e.1 e.2.1 e.2.2).points.length =
          st.points.length + 1 := by
        rw [hpts]; simp
      rw [if_pos hlen]
      obtain ⟨hall, hpw⟩ := ih (pointBtnHandlerSimple st e.1 e.2.1 e.2.2)
      rw [htime] at hall
      constructor
      · intro t ht
        rcases List.mem_cons.mp ht with h | h
        · omega
        · have := hall t h
          omega
      · refine List.pairwise_cons.mpr ⟨fun t ht => ?_, hpw⟩
        have := hall t ht
        omega

lemma acceptedTimesRobust_sep :
    ∀ (evts : List BtnEvent) (st : BtnState),
      (∀ t ∈ acceptedTimesRobust st evts, st.lastBtnTriggerTime + 300 * 1000000 ≤ t)
      ∧ (acceptedTimesRobust st evts).Pairwise fun a b => 300 * 1000000 ≤ b - a := by
  intro evts
  induction evts with
  | nil => intro st; simp [acceptedTimesRobust]
  | cons e rest ih =>
    intro st
    rw [acceptedTimesRobust]
    rcases robustBtn_step st e.ty e.now e.read1 e.read2 e.p with
      ⟨hpts, htime⟩ | ⟨hpts, htime, hsep⟩
    · have hlen : ¬ (robustBtnHandler st e.ty e.now e.read1 e.read2 e.p).points.length =
          st.points.length + 1 := by
        rw [hpts]; omega
      rw [if_neg hlen]
      obtain ⟨hall, hpw⟩ := ih (robustBtnHandler st e.ty e.now e.read1 e.read2 e.p)
      rw [htime] at hall
      exact ⟨hall, hpw⟩
    · have hlen : (robustBtnHandler st e.ty e.now e.read1 e.read2 e.p).points.length =
          st.points.length + 1 := by
        rw [hpts]; simp
      rw [if_pos hlen]
      obtain ⟨hall, hpw⟩ := ih (robustBtnHandler st e.ty e.now e.read1 e.read2 e.p)
      rw [htime] at hall
      constructor
      · intro t ht
        rcases List.mem_cons.mp ht with h | h
        · omega
        · have := hall t h
          omega
      · refine List.pairwise_cons.mpr ⟨fun t ht => ?_, hpw⟩
        have := hall t ht
        omega

/-- C8: in both button variants, an edge arriving strictly less than the
debounce interval (50 ms simple, 300 ms robust) after the last accepted
press is rejected and appends no point (the simple handler changes nothing
at all); consequently, in any replayed event sequence, the accepted capture
times are pairwise separated by at least the debounce interval. -/
theorem C8_debounce_rejection :
    (∀ (st : SimpleBtn) (now : Int) (p : Point),
      now - st.lastBtnPressTime < 50 * 1000000 →
        pointBtnHandlerSimple st EdgeType.falling now p = st)
    ∧ (∀ (st : SimpleBtn) (evts : List (EdgeType × Int × Point)),
        (acceptedTimesSimple st evts).Pairwise fun a b => 50 * 1000000 ≤ b - a)
    ∧ (∀ (st : BtnState) (now : Int) (r1 r2 : Option Int) (p : Point),
        now - st.lastBtnTriggerTime < 300 * 1000000 →
          (robustBtnHandler st EdgeType.rising now r1 r2 p).points = st.points)
    ∧ (∀ (st : BtnState) (evts : List BtnEvent),
        (acceptedTimesRobust st evts).Pairwise fun a b => 300 * 1000000 ≤ b - a) := by
  refine ⟨?_, ?_, ?_, ?_⟩
  · intro st now p h
    unfold pointBtnHandlerSimple
    rw [if_neg (by decide), if_pos h]
  · intro st evts
    exact (acceptedTimesSimple_sep evts st).2
  · intro st now r1 r2 p h
    simp only [robustBtnHandler]
    rw [if_pos h]
  · intro st evts
    exact (acceptedTimesRobust_sep evts st).2

/-- Witness for C8 at concrete inputs: a falling edge 10 ns after an
accepted press is dropped by the simple handler, and a rising edge 10 ns
after an accepted trigger appends no point in the robust handler. -/
theorem C8_debounce_rejection_witness :
    pointBtnHandlerSimple { lastBtnPressTime := 0, points := [] }
        EdgeType.falling 10 ⟨0, 0, 0⟩ =
      { lastBtnPressTime := 0, points := [] }
    ∧ (robustBtnHandler
        { lastBtnTriggerTime := 0, lastPinState := -1, recentRisingEdges := [],
          points := [] }
        EdgeType.rising 10 (some 1) (some 1) ⟨0, 0, 0⟩).points =
      ({ lastBtnTriggerTime := 0, lastPinState := -1, recentRisingEdges := [],
         points := [] } : BtnState).points :=
  ⟨C8_debounce_rejection.1 _ 10 _ (by decide),
   C8_debounce_rejection.2.2.1 _ 10 (some 1) (some 1) ⟨0, 0, 0⟩ (by decide)⟩

/-- C9: in the robust variant, a single isolated rising edge — the rolling
window holding no other edge within 100 ms, the previously recorded pin
level not the pressed (low) level — whose verification read returns the
released (high) level and which occurs more than 500 ms after the last
accepted trigger, is accepted: exactly one point is appended, the trigger
time and pin level are recorded, and the window is cleared. -/
theorem C9_isolated_edge_accepted :
    ∀ (st : BtnState) (now : Int) (r1 : Option Int) (p : Point),
      (st.recentRisingEdges.filter fun t => now - 100 * 1000000 < t) = [] →
      st.lastPinState ≠ 0 →
      500 * 1000000 < now - st.lastBtnTriggerTime →
        (robustBtnHandler st EdgeType.rising now r1 (some 1) p).points =
          st.points ++ [p]
        ∧ (robustBtnHandler st EdgeType.rising now r1 (some 1) p).lastBtnTriggerTime = now
        ∧ (robustBtnHandler st EdgeType.rising now r1 (some 1) p).recentRisingEdges = []
        ∧ (robustBtnHandler st EdgeType.rising now r1 (some 1) p).lastPinState = 1 := by
  intro st now r1 p hwin hpin hfall
  simp only [robustBtnHandler]
  rw [if_neg (by omega)]
  simp only [if_true]
  rw [if_pos (Or.inr (Or.inr hfall))]
  exact ⟨rfl, rfl, rfl, rfl⟩

/-- Witness for C9 at a concrete input: an isolated rising edge one second
after startup, pin reading high, is accepted and appends one point. -/
theorem C9_isolated_edge_accepted_witness :
    ((({ lastBtnTriggerTime := 0, lastPinState := -1, recentRisingEdges := [],
         points := [] } : BtnState).recentRisingEdges.filter
        fun t => 1000000000 - 100 * 1000000 < t) = [])
    ∧ (robustBtnHandler
        { lastBtnTriggerTime := 0, lastPinState := -1, recentRisingEdges := [],
          points := [] }
        EdgeType.rising 1000000000 (some 1) (some 1) ⟨4, 5, 6⟩).points =
      ({ lastBtnTriggerTime := 0, lastPinState := -1, recentRisingEdges := [],
         points := [] } : BtnState).points ++ [⟨4, 5, 6⟩] :=
  ⟨rfl,
   (C9_isolated_edge_accepted
      { lastBtnTriggerTime := 0, lastPinState := -1, recentRisingEdges := [],
        points := [] }
      1000000000 (some 1) ⟨4, 5, 6⟩ rfl (by decide) (by decide)).1⟩

end Closinuf
